import Mathlib

/-!
Verification of the NewsLens recommendations microservice
(`src/recommendations.py`) against its natural-language specification.

The repository's own code (`store_articles`, `get_recommendations`) is
embedded directly.  The vector store it delegates to (the ChromaDB
collection: `collection.add`, `collection.query`, `collection.count`) is a
third-party component whose implementation is not part of the repository;
those operations are modelled from the spec (cosine-distance ranking with
insertion-order tie-break, effective K = min(top_k, count), overwrite on
duplicate id) and are marked `Modelled from the spec:` below.

Floating-point arithmetic is idealised: embeddings are rational vectors and
similarity scores live in `ℝ`.  Python's `round(x, 3)` is idealised as
rounding `1000 * x` to the nearest integer.
-/

/-- A raw ingestion record (an article dict from the news API).  `none`
models an absent key.  `sourceName` models `article.get("source")["name"]`
when `source` is a dict carrying a name; `none` covers an absent or
non-dict `source` as well as a dict without a `"name"` key (all of which
the code maps to `"Unknown"`). -/
structure Article where
  title : Option String
  description : Option String
  url : Option String
  sourceName : Option String
deriving DecidableEq

/-- Stored display metadata: the dict `{"title": ..., "url": ..., "source": ...}`.
Fields are optional because a ChromaDB metadata dict may lack any key; the
code reads them with `dict.get` and a default. -/
structure Metadata where
  title : Option String
  url : Option String
  source : Option String
deriving DecidableEq

/-- One stored item of the vector store: id, document text, embedding and
optional metadata (ChromaDB allows entries without metadata, which is why
`get_recommendations` checks `metadata is None`). -/
structure Entry where
  id : String
  doc : String
  emb : List ℚ
  meta : Option Metadata
deriving DecidableEq

/-- The ChromaDB collection, as the ordered list of its entries (insertion
order is kept because the spec's tie-break refers to it). -/
abbrev Collection := List Entry

/-- The sentence-transformer `model.encode`: one batched call mapping texts
to embedding vectors, or raising (modelled as `Except.error`). -/
abbrev Encoder := List String → Except String (List (List ℚ))

/-- Python `str.strip()` on the derived text: drop whitespace from both ends. -/
def strip (s : String) : String :=
  ⟨((s.data.dropWhile Char.isWhitespace).reverse.dropWhile Char.isWhitespace).reverse⟩

/-- The derived text of a record:
`f"{article.get('title', '')} {article.get('description', '')}".strip()`. -/
def derivedText (a : Article) : String :=
  strip ((a.title.getD "") ++ " " ++ (a.description.getD ""))

/-- The metadata dict built by `store_articles` for one surviving record:
title and url default to `""`, the source name to `"Unknown"`. -/
def metaOf (a : Article) : Metadata :=
  ⟨some (a.title.getD ""), some (a.url.getD ""), some (a.sourceName.getD "Unknown")⟩

/-- The surviving records of a batch, with their positions in the original
batch: the loop `for i, article in enumerate(articles)` keeps exactly the
records whose derived text is non-empty, and uses `str(i)` as the id. -/
def survivors (arts : List Article) : List (ℕ × Article) :=
  arts.enum.filter (fun p => derivedText p.2 ≠ "")

/-- The `documents` list handed to `model.encode` by `store_articles`. -/
def docsOf (arts : List Article) : List String :=
  (survivors arts).map (fun p => derivedText p.2)

/-- Modelled from the spec: inserting one entry into the collection.  The
repository leaves the duplicate-id policy to ChromaDB (not in `src/`); the
spec (§3, §9) requires one fixed policy and recommends overwrite, so a
duplicate id overwrites the existing entry in place and a fresh id is
appended. -/
def addEntry (col : Collection) (e : Entry) : Collection :=
  if col.any (fun x => x.id = e.id) then
    col.map (fun x => if x.id = e.id then e else x)
  else
    col ++ [e]

/-- Modelled from the spec: `collection.add(ids, documents, embeddings,
metadatas)` stores the aligned quadruples in order. -/
def collectionAdd (col : Collection) (ids : List String) (docs : List String)
    (embs : List (List ℚ)) (metas : List Metadata) : Collection :=
  (ids.zip (docs.zip (embs.zip metas))).foldl
    (fun s q => addEntry s ⟨q.1, q.2.1, q.2.2.1, some q.2.2.2⟩) col

/-- Outcome of one `store_articles` call: the collection afterwards, the
Python return value (`ok none` = the function returned `None`; `error e` =
the exception `e` propagated), the count reported by the final
`print(f"Stored {len(ids)} articles ...")` if it ran, and how many times
`model.encode` was called. -/
structure StoreOutcome where
  state : Collection
  result : Except String (Option ℕ)
  logged : Option ℕ
  encoderCalls : ℕ

/-- `store_articles` (src/recommendations.py lines 31-79): derive each
record's text, skip empty ones, batch-encode the survivors once, store
them.  Early returns (`if not articles`, `if not ids`) return `None`
without calling the encoder; an encoder exception propagates before
`collection.add` runs, leaving the collection unchanged.  `idsOf` is the
`ids` list (`str(i)` per surviving record) and `metasOf` the `metadatas`
list built by the loop. -/
def idsOf (arts : List Article) : List String :=
  (survivors arts).map (fun p => toString p.1)

def metasOf (arts : List Article) : List Metadata :=
  (survivors arts).map (fun p => metaOf p.2)

def storeArticles (enc : Encoder) (col : Collection) (arts : List Article) :
    StoreOutcome :=
  if arts.isEmpty then ⟨col, Except.ok none, none, 0⟩
  else if (idsOf arts).isEmpty then ⟨col, Except.ok none, none, 0⟩
  else
    match enc (docsOf arts) with
    | Except.error e => ⟨col, Except.error e, none, 1⟩
    | Except.ok embs =>
      ⟨collectionAdd col (idsOf arts) (docsOf arts) embs (metasOf arts),
       Except.ok none, some (idsOf arts).length, 1⟩

/-- Rational dot product of two vectors (`zip` truncates, matching a
componentwise loop over the common length). -/
def dotQ (q v : List ℚ) : ℚ :=
  ((q.zip v).map (fun p => p.1 * p.2)).sum

/-- Modelled from the spec: cosine similarity `dot(q, v) / (‖q‖ * ‖v‖)`,
defined as `0` when either operand has norm `0`.  Over the rationals,
`‖v‖ = 0` iff the self-dot `dotQ v v` is `0`, which is the decidable test
used here; the norms themselves are `Real.sqrt` of the self-dots. -/
noncomputable def cosineSim (q v : List ℚ) : ℝ :=
  if dotQ q q = 0 ∨ dotQ v v = 0 then 0
  else (dotQ q v : ℝ) / (Real.sqrt (dotQ q q) * Real.sqrt (dotQ v v))

/-- Modelled from the spec: the cosine distance ChromaDB reports for a
cosine-similarity collection, `1 - sim` (this is what line 124 of the code
inverts with `1 - distance`). -/
noncomputable def cosineDist (q v : List ℚ) : ℝ :=
  1 - cosineSim q v

/-- Distance of a position-tagged entry from the query vector. -/
noncomputable def distOf (qv : List ℚ) (p : ℕ × Entry) : ℝ :=
  cosineDist qv p.2.emb

/-- Modelled from the spec: the ranking order — ascending cosine distance
(descending similarity), ties broken by insertion position, earlier wins. -/
def qOrder (qv : List ℚ) (a b : ℕ × Entry) : Prop :=
  distOf qv a < distOf qv b ∨ (distOf qv a = distOf qv b ∧ a.1 ≤ b.1)

noncomputable instance (qv : List ℚ) : DecidableRel (qOrder qv) :=
  fun a b => inferInstanceAs (Decidable
    (distOf qv a < distOf qv b ∨ (distOf qv a = distOf qv b ∧ a.1 ≤ b.1)))

instance (qv : List ℚ) : IsTotal (ℕ × Entry) (qOrder qv) where
  total a b := by
    rcases lt_trichotomy (distOf qv a) (distOf qv b) with h | h | h
    · exact Or.inl (Or.inl h)
    · rcases Nat.le_total a.1 b.1 with hn | hn
      · exact Or.inl (Or.inr ⟨h, hn⟩)
      · exact Or.inr (Or.inr ⟨h.symm, hn⟩)
    · exact Or.inr (Or.inl h)

instance (qv : List ℚ) : IsTrans (ℕ × Entry) (qOrder qv) where
  trans a b c hab hbc := by
    rcases hab with hab | ⟨hab, hab2⟩ <;> rcases hbc with hbc | ⟨hbc, hbc2⟩
    · exact Or.inl (hab.trans hbc)
    · exact Or.inl (hbc ▸ hab)
    · exact Or.inl (hab ▸ hbc)
    · exact Or.inr ⟨hab.trans hbc, hab2.trans hbc2⟩

/-- Modelled from the spec: the stored entries tagged with their insertion
positions and sorted by the ranking order (brute-force exact search). -/
noncomputable def ranked (col : Collection) (qv : List ℚ) : List (ℕ × Entry) :=
  List.insertionSort (qOrder qv) col.enum

/-- The dict returned by `collection.query`: the fields the code reads,
each optional because the ChromaDB typing makes `results.get(...)`
optional (lines 106-113 guard against `None` and empty lists). -/
structure QueryResponse where
  metadatas : Option (List (List (Option Metadata)))
  distances : Option (List (List ℝ))

/-- Modelled from the spec: `collection.query(query_embeddings, n_results)`
ranks the whole collection against each query embedding and returns the
top `n` metadatas and distances, aligned, one inner list per query
embedding. -/
noncomputable def collectionQuery (col : Collection) (qembs : List (List ℚ))
    (n : ℕ) : QueryResponse :=
  ⟨some (qembs.map (fun qv => ((ranked col qv).take n).map (fun p => p.2.meta))),
   some (qembs.map (fun qv => ((ranked col qv).take n).map (distOf qv)))⟩

/-- Python `round(x, 3)`: the score rounded to 3 decimal places
(idealised as round-to-nearest on the reals). -/
noncomputable def round3R (x : ℝ) : ℝ :=
  (round (x * 1000) : ℤ) / 1000

/-- The score reported for a result at distance `d`:
`round(1 - res_distances[0][i], 3)`. -/
noncomputable def mkScore (d : ℝ) : ℝ :=
  round3R (1 - d)

/-- One returned recommendation record — exactly the four fields built at
lines 120-125 of the code. -/
structure Rec where
  title : String
  url : String
  source : String
  score : ℝ

/-- The record built from a non-`None` metadata and its distance, with the
code's defaults: title and source default to `"Unknown"`, url to `""`. -/
noncomputable def mkRec (m : Metadata) (d : ℝ) : Rec :=
  ⟨m.title.getD "Unknown", m.url.getD "", m.source.getD "Unknown", mkScore d⟩

/-- The result loop of `get_recommendations` (lines 115-125): walk the
metadatas with their index into the distances; a `None` metadata is
skipped (`continue`) and its distance position is consumed.  The final
case (a live metadata whose distance index is out of range) would raise
`IndexError` in Python; it is unreachable for the aligned lists the model
produces and is mapped to the empty continuation here. -/
noncomputable def buildRecs : List (Option Metadata) → List ℝ → List Rec
  | [], _ => []
  | none :: ms, ds => buildRecs ms ds.tail
  | some m :: ms, d :: ds => mkRec m d :: buildRecs ms ds
  | some _ :: _, [] => []

/-- Outcome of one `get_recommendations` call: the Python return value
(`ok recs`, or `error e` for a propagated encoder exception) and the
number of `model.encode` calls performed. -/
structure QueryOutcome where
  result : Except String (List Rec)
  encoderCalls : ℕ

/-- `get_recommendations` (src/recommendations.py lines 87-127): empty
collection short-circuits to `[]` with no encoder call; otherwise the
query text is embedded once and the collection queried with
`n_results = min(top_k, collection.count())`; the response is unpacked
with the `None`/emptiness guards of lines 106-113 and folded into
recommendation records. -/
noncomputable def getRecommendations (col : Collection) (enc : Encoder)
    (queryText : String) (topK : ℤ) : QueryOutcome :=
  if col.length = 0 then ⟨Except.ok [], 0⟩
  else
    match enc [queryText] with
    | Except.error e => ⟨Except.error e, 1⟩
    | Except.ok qembs =>
      let res := collectionQuery col qembs (min topK (col.length : ℤ)).toNat
      match res.metadatas, res.distances with
      | none, _ => ⟨Except.ok [], 1⟩
      | some _, none => ⟨Except.ok [], 1⟩
      | some ms, some ds =>
        if ms.isEmpty ∨ ds.isEmpty then ⟨Except.ok [], 1⟩
        else ⟨Except.ok (buildRecs ms.headI ds.headI), 1⟩

-- Concrete instances used by witnesses and counterexamples.

/-- An encoder that embeds every text as the vector `[1]`. -/
def encOne : Encoder := fun ts => Except.ok (ts.map (fun _ => ([1] : List ℚ)))

/-- An encoder that always fails. -/
def encFail : Encoder := fun _ => Except.error "boom"

/-- A record with text, url and source. -/
def aGood : Article := ⟨some "T", some "D", some "http", some "S"⟩

/-- A record with no fields at all: its derived text strips to `""`. -/
def aBlank : Article := ⟨none, none, none, none⟩

/-- A fully populated metadata dict. -/
def metaFull : Metadata := ⟨some "T1", some "http1", some "S1"⟩

/-- A metadata dict missing url and source. -/
def metaPart : Metadata := ⟨some "T2", none, none⟩

/-- A stored entry with full metadata. -/
def eFull : Entry := ⟨"0", "T D", [1], some metaFull⟩

/-- A stored entry with partial metadata. -/
def ePart : Entry := ⟨"1", "t2", [1], some metaPart⟩

/-- A stored entry whose metadata is `None`. -/
def eNone : Entry := ⟨"2", "t3", [1], none⟩

/-- All ids currently stored in the collection, in insertion order. -/
def colIds (col : Collection) : List String := col.map (fun x => x.id)

-- Helper lemmas.

theorem getRecommendations_of_count_zero (col : Collection) (enc : Encoder)
    (q : String) (k : ℤ) (h : col.length = 0) :
    getRecommendations col enc q k = ⟨Except.ok [], 0⟩ := by
  unfold getRecommendations
  rw [if_pos h]

theorem getRecommendations_eq_ok (col : Collection) (enc : Encoder) (q : String)
    (k : ℤ) (qv : List ℚ) (rest : List (List ℚ))
    (hc : col.length ≠ 0) (he : enc [q] = Except.ok (qv :: rest)) :
    getRecommendations col enc q k =
      ⟨Except.ok (buildRecs
          (((ranked col qv).take (min k (col.length : ℤ)).toNat).map (fun p => p.2.meta))
          (((ranked col qv).take (min k (col.length : ℤ)).toNat).map (distOf qv))), 1⟩ := by
  unfold getRecommendations
  rw [if_neg hc, he]
  simp [collectionQuery]

theorem getRecommendations_of_encoder_nil (col : Collection) (enc : Encoder)
    (q : String) (k : ℤ) (hc : col.length ≠ 0)
    (he : enc [q] = Except.ok []) :
    getRecommendations col enc q k = ⟨Except.ok [], 1⟩ := by
  unfold getRecommendations
  rw [if_neg hc, he]
  simp [collectionQuery]

theorem buildRecs_length_le (ms : List (Option Metadata)) :
    ∀ ds : List ℝ, (buildRecs ms ds).length ≤ ms.length := by
  induction ms with
  | nil => intro ds; simp [buildRecs]
  | cons m ms ih =>
    intro ds
    cases m with
    | none =>
      calc (buildRecs (none :: ms) ds).length = (buildRecs ms ds.tail).length := by
            simp [buildRecs]
        _ ≤ ms.length := ih _
        _ ≤ (none :: ms).length := by simp
    | some m =>
      cases ds with
      | nil => simp [buildRecs]
      | cons d ds =>
        simpa [buildRecs] using ih ds

theorem mem_buildRecs {r : Rec} :
    ∀ (ms : List (Option Metadata)) (ds : List ℝ), r ∈ buildRecs ms ds →
      ∃ m d, (some m, d) ∈ ms.zip ds ∧ r = mkRec m d := by
  intro ms
  induction ms with
  | nil => intro ds h; simp [buildRecs] at h
  | cons m ms ih =>
    intro ds h
    cases m with
    | none =>
      rw [show buildRecs (none :: ms) ds = buildRecs ms ds.tail from by simp [buildRecs]] at h
      obtain ⟨m, d, hmem, hr⟩ := ih ds.tail h
      cases ds with
      | nil => simp at hmem
      | cons d0 ds =>
        exact ⟨m, d, List.mem_cons_of_mem _ hmem, hr⟩
    | some m0 =>
      cases ds with
      | nil => simp [buildRecs] at h
      | cons d0 ds =>
        rw [show buildRecs (some m0 :: ms) (d0 :: ds) = mkRec m0 d0 :: buildRecs ms ds
              from by simp [buildRecs]] at h
        rcases List.mem_cons.mp h with hr | hr
        · exact ⟨m0, d0, List.mem_cons_self _ _, hr⟩
        · obtain ⟨m, d, hmem, hr⟩ := ih ds hr
          exact ⟨m, d, List.mem_cons_of_mem _ hmem, hr⟩

theorem mkRec_score (m : Metadata) (d : ℝ) : (mkRec m d).score = mkScore d := rfl

theorem buildRecs_scores_sublist (ms : List (Option Metadata)) :
    ∀ ds : List ℝ, ((buildRecs ms ds).map Rec.score).Sublist (ds.map mkScore) := by
  induction ms with
  | nil => intro ds; simp [buildRecs]
  | cons m ms ih =>
    intro ds
    cases m with
    | none =>
      rw [show buildRecs (none :: ms) ds = buildRecs ms ds.tail from by simp [buildRecs]]
      exact (ih ds.tail).trans (List.Sublist.map mkScore (List.tail_sublist ds))
    | some m0 =>
      cases ds with
      | nil => simp [buildRecs]
      | cons d0 ds =>
        rw [show buildRecs (some m0 :: ms) (d0 :: ds) = mkRec m0 d0 :: buildRecs ms ds
              from by simp [buildRecs]]
        simpa [mkRec_score] using (ih ds).cons₂ (mkScore d0)

theorem round3R_mono {x y : ℝ} (h : x ≤ y) : round3R x ≤ round3R y := by
  unfold round3R
  have hr : round (x * 1000) ≤ round (y * 1000) := by
    rw [round_eq, round_eq]
    exact Int.floor_mono (by linarith)
  have hc : ((round (x * 1000) : ℤ) : ℝ) ≤ ((round (y * 1000) : ℤ) : ℝ) := by
    exact_mod_cast hr
  linarith

theorem mkScore_antitone {d d' : ℝ} (h : d ≤ d') : mkScore d' ≤ mkScore d :=
  round3R_mono (by linarith)

theorem sorted_ranked (col : Collection) (qv : List ℚ) :
    List.Sorted (qOrder qv) (ranked col qv) :=
  List.sorted_insertionSort _ _

theorem nodupFst_ranked (col : Collection) (qv : List ℚ) :
    ((ranked col qv).map Prod.fst).Nodup := by
  have hperm := (List.perm_insertionSort (qOrder qv) col.enum).map Prod.fst
  exact hperm.nodup_iff.mpr (List.nodup_enum_map_fst col)

theorem mem_of_mem_ranked {p : ℕ × Entry} {col : Collection} {qv : List ℚ}
    (hp : p ∈ ranked col qv) : p.2 ∈ col := by
  have h1 : p ∈ col.enum := (List.mem_insertionSort _).mp hp
  rw [List.enum_eq_zip_range] at h1
  have h2 : (p.1, p.2) ∈ (List.range col.length).zip col := by simpa using h1
  exact (List.of_mem_zip h2).2

theorem length_filter_enumFrom (p : Article → Bool) :
    ∀ (n : ℕ) (l : List Article),
      ((List.enumFrom n l).filter (fun q => p q.2)).length = (l.filter p).length := by
  intro n l
  induction l generalizing n with
  | nil => rfl
  | cons a l ih =>
    simp only [List.enumFrom, List.filter_cons]
    cases h : p a <;> simp [h, ih]

theorem survivors_length (arts : List Article) :
    (survivors arts).length = (arts.filter (fun a => derivedText a ≠ "")).length := by
  rw [survivors, List.enum]
  exact length_filter_enumFrom (fun a => derivedText a ≠ "") 0 arts

theorem survivors_of_all_blank {arts : List Article}
    (h : ∀ a ∈ arts, derivedText a = "") : survivors arts = [] := by
  rw [survivors, List.filter_eq_nil_iff]
  rintro ⟨i, a⟩ hp
  rw [List.enum_eq_zip_range] at hp
  have ha : a ∈ arts := (List.of_mem_zip hp).2
  simp [h a ha]

theorem addEntry_ids_of_mem {col : Collection} {e : Entry}
    (h : e.id ∈ colIds col) : colIds (addEntry col e) = colIds col := by
  unfold addEntry
  rw [if_pos]
  · unfold colIds
    rw [List.map_map]
    refine List.map_congr_left (fun x _ => ?_)
    dsimp only [Function.comp]
    split
    · next hx => rw [← hx]
    · rfl
  · rw [List.any_eq_true]
    obtain ⟨x, hx, hid⟩ := List.mem_map.mp h
    exact ⟨x, hx, by simp [hid]⟩

theorem addEntry_nodup {col : Collection} {e : Entry}
    (h : (colIds col).Nodup) : (colIds (addEntry col e)).Nodup := by
  unfold addEntry
  split
  · next hc =>
    have : colIds (col.map (fun x => if x.id = e.id then e else x)) = colIds col := by
      unfold colIds
      rw [List.map_map]
      refine List.map_congr_left (fun x _ => ?_)
      dsimp only [Function.comp]
      split
      · next hx => rw [← hx]
      · rfl
    rw [this]
    exact h
  · next hc =>
    unfold colIds
    rw [List.map_append]
    rw [List.nodup_append]
    refine ⟨h, List.nodup_singleton _, ?_⟩
    intro s hs hs'
    rcases List.mem_map.mp hs with ⟨x, hx, hxid⟩
    simp only [List.map_cons, List.map_nil, List.mem_singleton] at hs'
    exact hc (List.any_eq_true.mpr ⟨x, hx, by simp [hxid, hs']⟩)

theorem collectionAdd_nodup (ids docs : List String) (embs : List (List ℚ))
    (metas : List Metadata) {col : Collection} (h : (colIds col).Nodup) :
    (colIds (collectionAdd col ids docs embs metas)).Nodup := by
  unfold collectionAdd
  generalize (ids.zip (docs.zip (embs.zip metas))) = ps
  induction ps generalizing col with
  | nil => exact h
  | cons p ps ih => exact ih (addEntry_nodup h)

theorem isEmpty_false_of_survivors {arts : List Article}
    (hsv : survivors arts ≠ []) : arts.isEmpty = false := by
  cases arts with
  | nil => exact absurd rfl hsv
  | cons a l => exact List.isEmpty_cons

theorem idsOf_isEmpty_false {arts : List Article}
    (hsv : survivors arts ≠ []) : (idsOf arts).isEmpty = false := by
  rw [idsOf]
  cases h : survivors arts with
  | nil => exact absurd h hsv
  | cons p l => simp

theorem storeArticles_error (enc : Encoder) (col : Collection)
    (arts : List Article) (e : String)
    (hsv : survivors arts ≠ []) (henc : enc (docsOf arts) = Except.error e) :
    storeArticles enc col arts = ⟨col, Except.error e, none, 1⟩ := by
  unfold storeArticles
  rw [if_neg (by simp [isEmpty_false_of_survivors hsv]),
      if_neg (by simp [idsOf_isEmpty_false hsv]), henc]

theorem storeArticles_ok (enc : Encoder) (col : Collection)
    (arts : List Article) (embs : List (List ℚ))
    (hsv : survivors arts ≠ []) (henc : enc (docsOf arts) = Except.ok embs) :
    storeArticles enc col arts =
      ⟨collectionAdd col (idsOf arts) (docsOf arts) embs (metasOf arts),
       Except.ok none, some (idsOf arts).length, 1⟩ := by
  unfold storeArticles
  rw [if_neg (by simp [isEmpty_false_of_survivors hsv]),
      if_neg (by simp [idsOf_isEmpty_false hsv]), henc]

-- Claim theorems.

/-- C6: querying an index with zero stored articles returns an empty result
(never a failure) and performs no TextEncoder call. -/
theorem emptyCorpus_query_empty (col : Collection) (enc : Encoder) (q : String)
    (k : ℤ) (h : col.length = 0) :
    getRecommendations col enc q k = ⟨Except.ok [], 0⟩ :=
  getRecommendations_of_count_zero col enc q k h

theorem emptyCorpus_query_empty_witness :
    ([] : Collection).length = 0 ∧
    getRecommendations [] encOne "query" 5 = ⟨Except.ok [], 0⟩ :=
  ⟨rfl, emptyCorpus_query_empty [] encOne "query" 5 rfl⟩

/-- C7 (counterexample): on a batch whose records all have empty derived
text, `store_articles` returns `None` (modelled as `Except.ok none`), not
the integer `0` the claim states. -/
theorem blankBatch_returns_none_counterexample :
    (storeArticles encOne [] [aBlank]).result = Except.ok none ∧
    (Except.ok none : Except String (Option ℕ)) ≠ Except.ok (some 0) :=
  ⟨rfl, fun h => Option.noConfusion (Except.ok.inj h)⟩

/-- C7 (amended): for a batch in which every record's derived text is
empty, `store_articles` stores nothing, performs no TextEncoder call,
prints no stored-count, and returns `None` (rather than the `0` the claim
states). -/
theorem blankBatch_insert_noop (enc : Encoder) (col : Collection)
    (arts : List Article) (h : ∀ a ∈ arts, derivedText a = "") :
    storeArticles enc col arts = ⟨col, Except.ok none, none, 0⟩ := by
  have hsv := survivors_of_all_blank h
  unfold storeArticles
  cases arts with
  | nil => rfl
  | cons a l =>
    rw [if_neg (by simp), if_pos (by simp [idsOf, hsv])]

theorem blankBatch_insert_noop_witness :
    (∀ a ∈ [aBlank], derivedText a = "") ∧
    storeArticles encOne [] [aBlank] = ⟨[], Except.ok none, none, 0⟩ := by
  have h : ∀ a ∈ [aBlank], derivedText a = "" := by
    intro a ha
    rw [List.mem_singleton] at ha
    subst ha
    rfl
  exact ⟨h, blankBatch_insert_noop encOne [] [aBlank] h⟩

/-- C3 (counterexample): on a batch with one storable record, the insert
operation stores and logs 1 article but its Python return value is `None`
(modelled as `Except.ok none`), not the stored count `1`. -/
theorem insert_return_counterexample :
    (storeArticles encOne [] [aGood]).logged = some 1 ∧
    (storeArticles encOne [] [aGood]).result ≠ Except.ok (some 1) := by
  refine ⟨rfl, fun h => ?_⟩
  rw [show (storeArticles encOne [] [aGood]).result = Except.ok none from rfl] at h
  exact Option.noConfusion (Except.ok.inj h)

/-- C3 (amended): when at least one record survives the empty-text filter
and the encoder succeeds, `store_articles` stores the surviving records and
logs their number — the count of records with non-empty derived text — but
returns `None`; no `{stored: n}` value reaches the caller. -/
theorem insert_stores_and_logs_count (enc : Encoder) (col : Collection)
    (arts : List Article) (embs : List (List ℚ))
    (hsv : survivors arts ≠ []) (henc : enc (docsOf arts) = Except.ok embs) :
    (storeArticles enc col arts).result = Except.ok none ∧
    (storeArticles enc col arts).logged =
      some ((arts.filter (fun a => derivedText a ≠ "")).length) := by
  rw [storeArticles_ok enc col arts embs hsv henc]
  refine ⟨rfl, ?_⟩
  show some (idsOf arts).length = _
  rw [idsOf, List.length_map, survivors_length]

theorem insert_stores_and_logs_count_witness :
    survivors [aGood] ≠ [] ∧
    (storeArticles encOne [] [aGood]).result = Except.ok none ∧
    (storeArticles encOne [] [aGood]).logged =
      some (([aGood].filter (fun a => derivedText a ≠ "")).length) := by
  have hsv : survivors [aGood] ≠ [] := by
    rw [show survivors [aGood] = [(0, aGood)] from rfl]
    simp
  exact ⟨hsv, insert_stores_and_logs_count encOne [] [aGood] [[1]] hsv rfl⟩

/-- C8: if the TextEncoder call fails, the failure propagates to the caller
of `store_articles` and the collection is unchanged — no article of the
batch is stored, since `model.encode` runs before `collection.add`. -/
theorem encoderFailure_propagates_state_unchanged (enc : Encoder)
    (col : Collection) (arts : List Article) (e : String)
    (hsv : survivors arts ≠ []) (henc : enc (docsOf arts) = Except.error e) :
    storeArticles enc col arts = ⟨col, Except.error e, none, 1⟩ :=
  storeArticles_error enc col arts e hsv henc

theorem encoderFailure_propagates_state_unchanged_witness :
    survivors [aGood] ≠ [] ∧
    storeArticles encFail [eFull] [aGood] = ⟨[eFull], Except.error "boom", none, 1⟩ := by
  have hsv : survivors [aGood] ≠ [] := by
    rw [show survivors [aGood] = [(0, aGood)] from rfl]
    simp
  exact ⟨hsv, encoderFailure_propagates_state_unchanged encFail [eFull] [aGood] "boom" hsv rfl⟩

/-- C5 (duplicate policy modelled from the spec as overwrite): stored ids
stay unique across every insert — `store_articles` preserves `Nodup` of the
stored id list — and inserting an entry whose id is already stored
overwrites it in place, leaving the id list unchanged. -/
theorem ids_unique_invariant (enc : Encoder) (col : Collection)
    (arts : List Article) (h : (colIds col).Nodup) :
    (colIds (storeArticles enc col arts).state).Nodup ∧
    ∀ (col' : Collection) (e : Entry), e.id ∈ colIds col' →
      colIds (addEntry col' e) = colIds col' := by
  constructor
  · unfold storeArticles
    split
    · exact h
    · split
      · exact h
      · split
        · exact h
        · exact collectionAdd_nodup _ _ _ _ h
  · intro col' e he
    exact addEntry_ids_of_mem he

theorem ids_unique_invariant_witness :
    (colIds ([] : Collection)).Nodup ∧
    (colIds (storeArticles encOne [] [aGood]).state).Nodup := by
  have h : (colIds ([] : Collection)).Nodup := List.nodup_nil
  exact ⟨h, (ids_unique_invariant encOne [] [aGood] h).1⟩

/-- C1 (vector search modelled from the spec): on a non-empty index, every
returned recommendation's score is the cosine similarity between the query
embedding and that stored article's embedding, rounded to 3 decimal places
(the code computes `round(1 - distance, 3)` and the modelled cosine
distance is `1 - sim`); similarity is 0 whenever either operand has norm 0.
Stored vectors are never mutated: the query pipeline is a pure function of
the collection. -/
theorem score_is_rounded_cosine (col : Collection) (enc : Encoder)
    (q : String) (k : ℤ) (qv : List ℚ) (rest : List (List ℚ))
    (hc : col.length ≠ 0) (henc : enc [q] = Except.ok (qv :: rest)) :
    (∀ recs, (getRecommendations col enc q k).result = Except.ok recs →
      ∀ r ∈ recs, ∃ e ∈ col, ∃ m, e.meta = some m ∧
        r.score = round3R (cosineSim qv e.emb)) ∧
    (∀ u v : List ℚ, dotQ u u = 0 ∨ dotQ v v = 0 → cosineSim u v = 0) := by
  constructor
  · intro recs hres r hr
    rw [getRecommendations_eq_ok col enc q k qv rest hc henc] at hres
    replace hres := Except.ok.inj hres
    subst hres
    obtain ⟨m, d, hzip, hrec⟩ := mem_buildRecs _ _ hr
    rw [List.zip_map'] at hzip
    obtain ⟨p, hp, heq⟩ := List.mem_map.mp hzip
    have hmeta : p.2.meta = some m := congrArg Prod.fst heq
    have hd : d = distOf qv p := (congrArg Prod.snd heq).symm
    refine ⟨p.2, mem_of_mem_ranked (List.take_subset _ _ hp), m, hmeta, ?_⟩
    rw [hrec, mkRec_score, mkScore, hd, distOf, cosineDist, sub_sub_cancel]
  · intro u v h
    rw [cosineSim, if_pos h]

theorem score_is_rounded_cosine_witness :
    ([eFull] : Collection).length ≠ 0 ∧
    encOne ["t"] = Except.ok [[1]] ∧
    (∃ e ∈ [eFull], ∃ m, e.meta = some m ∧
      (mkRec metaFull (distOf [1] (0, eFull))).score = round3R (cosineSim [1] e.emb)) :=
  ⟨by simp, rfl,
   (score_is_rounded_cosine [eFull] encOne "t" 1 [1] [] (by simp) rfl).1
     [mkRec metaFull (distOf [1] (0, eFull))] rfl _ (List.mem_singleton.mpr rfl)⟩

/-- C2 (ranking modelled from the spec): for every positive `top_k` and
every index state, a successful query returns at most
`min(top_k, count())` results sorted by non-increasing score; requesting
more neighbors than are stored is clamped, not rejected. -/
theorem query_clamped_and_sorted (col : Collection) (enc : Encoder)
    (q : String) (k : ℤ) (qembs : List (List ℚ))
    (hk : 0 < k) (henc : enc [q] = Except.ok qembs) :
    ∃ recs : List Rec,
      (getRecommendations col enc q k).result = Except.ok recs ∧
      recs.length ≤ min k.toNat col.length ∧
      List.Pairwise (fun a b : ℝ => b ≤ a) (recs.map Rec.score) := by
  by_cases hc : col.length = 0
  · refine ⟨[], ?_, by simp, by simp⟩
    rw [getRecommendations_of_count_zero col enc q k hc]
  · cases qembs with
    | nil =>
      refine ⟨[], ?_, by simp, by simp⟩
      rw [getRecommendations_of_encoder_nil col enc q k hc henc]
    | cons qv rest =>
      refine ⟨buildRecs
          (((ranked col qv).take (min k (col.length : ℤ)).toNat).map (fun p => p.2.meta))
          (((ranked col qv).take (min k (col.length : ℤ)).toNat).map (distOf qv)), ?_, ?_, ?_⟩
      · rw [getRecommendations_eq_ok col enc q k qv rest hc henc]
      · calc (buildRecs _ _).length
            ≤ (((ranked col qv).take (min k (col.length : ℤ)).toNat).map
                (fun p => p.2.meta)).length := buildRecs_length_le _ _
          _ ≤ (min k (col.length : ℤ)).toNat := by
              rw [List.length_map, List.length_take]
              exact min_le_left _ _
          _ ≤ min k.toNat col.length := by
              refine le_min (Int.toNat_le_toNat (min_le_left _ _)) ?_
              have := Int.toNat_le_toNat (min_le_right k (col.length : ℤ))
              rwa [Int.toNat_natCast] at this
      · have hsorted := sorted_ranked col qv
        have htake : List.Pairwise (qOrder qv)
            ((ranked col qv).take (min k (col.length : ℤ)).toNat) :=
          List.Pairwise.sublist (List.take_sublist _ _) hsorted
        have hds : List.Pairwise (fun a b : ℝ => a ≤ b)
            (((ranked col qv).take (min k (col.length : ℤ)).toNat).map (distOf qv)) := by
          rw [List.pairwise_map]
          refine htake.imp (fun hab => ?_)
          rcases hab with hlt | ⟨heq, _⟩
          · exact le_of_lt hlt
          · exact le_of_eq heq
        have hscores : List.Pairwise (fun a b : ℝ => b ≤ a)
            ((((ranked col qv).take (min k (col.length : ℤ)).toNat).map (distOf qv)).map
              mkScore) := by
          rw [List.pairwise_map]
          exact hds.imp (fun hab => mkScore_antitone hab)
        exact List.Pairwise.sublist (buildRecs_scores_sublist _ _) hscores

theorem query_clamped_and_sorted_witness :
    (0 : ℤ) < 9 ∧
    ∃ recs : List Rec,
      (getRecommendations [eFull] encOne "t" 9).result = Except.ok recs ∧
      recs.length ≤ min (9 : ℤ).toNat ([eFull] : Collection).length ∧
      List.Pairwise (fun a b : ℝ => b ≤ a) (recs.map Rec.score) :=
  ⟨by decide, query_clamped_and_sorted [eFull] encOne "t" 9 [[1]] (by decide) rfl⟩

/-- C4 (counterexample): a query with `top_k = 0` against a non-empty index
is not rejected — it silently returns an empty, error-free result. -/
theorem nonpositive_topk_not_rejected_counterexample :
    (getRecommendations [eFull] encOne "q" 0).result = Except.ok [] := rfl

/-- C4 (amended): a non-positive `top_k` is not rejected with an error;
`n_results = min(top_k, count())` is non-positive, so the query silently
returns an empty successful result (when the encoder succeeds). -/
theorem nonpositive_topk_clamped (col : Collection) (enc : Encoder)
    (q : String) (k : ℤ) (qembs : List (List ℚ))
    (hk : k ≤ 0) (henc : enc [q] = Except.ok qembs) :
    (getRecommendations col enc q k).result = Except.ok [] := by
  by_cases hc : col.length = 0
  · rw [getRecommendations_of_count_zero col enc q k hc]
  · have hn : (min k (col.length : ℤ)).toNat = 0 :=
      Int.toNat_of_nonpos (le_trans (min_le_left _ _) hk)
    cases qembs with
    | nil => rw [getRecommendations_of_encoder_nil col enc q k hc henc]
    | cons qv rest =>
      rw [getRecommendations_eq_ok col enc q k qv rest hc henc]
      rw [hn]
      simp [buildRecs]

theorem nonpositive_topk_clamped_witness :
    (-2 : ℤ) ≤ 0 ∧
    (getRecommendations [ePart] encOne "q" (-2)).result = Except.ok [] :=
  ⟨by decide, nonpositive_topk_clamped [ePart] encOne "q" (-2) [[1]] (by decide) rfl⟩

/-- C9 (ranking modelled from the spec): results are ranked by ascending
cosine distance (descending similarity) with ties broken by insertion
position — the earlier-inserted entry strictly precedes — and a query is a
pure function of the collection, so two calls with the same text and the
same `top_k` on a fixed corpus return identical results. -/
theorem ranking_tiebreak_deterministic (col : Collection) (qv : List ℚ) :
    List.Pairwise (fun a b : ℕ × Entry =>
        distOf qv a < distOf qv b ∨ (distOf qv a = distOf qv b ∧ a.1 < b.1))
      (ranked col qv) ∧
    ∀ (enc : Encoder) (q q' : String) (k k' : ℤ), q = q' → k = k' →
      getRecommendations col enc q k = getRecommendations col enc q' k' := by
  constructor
  · have hs := sorted_ranked col qv
    have hn : List.Pairwise (fun a b : ℕ × Entry => a.1 ≠ b.1) (ranked col qv) :=
      List.pairwise_map.mp (nodupFst_ranked col qv)
    refine (List.pairwise_and_iff.mpr ⟨hs, hn⟩).imp (fun hab => ?_)
    obtain ⟨hq, hne⟩ := hab
    have hq' : distOf qv _ < distOf qv _ ∨ (distOf qv _ = distOf qv _ ∧ _ ≤ _) := hq
    rcases hq' with hlt | ⟨heq, hle⟩
    · exact Or.inl hlt
    · exact Or.inr ⟨heq, lt_of_le_of_ne hle hne⟩
  · rintro enc q q' k k' rfl rfl
    rfl

theorem ranking_tiebreak_deterministic_witness :
    List.Pairwise (fun a b : ℕ × Entry =>
        distOf [1] a < distOf [1] b ∨ (distOf [1] a = distOf [1] b ∧ a.1 < b.1))
      (ranked [eFull, ePart] [1]) ∧
    getRecommendations [eFull, ePart] encOne "t" 2 =
      getRecommendations [eFull, ePart] encOne "t" 2 :=
  ⟨(ranking_tiebreak_deterministic [eFull, ePart] [1]).1,
   (ranking_tiebreak_deterministic [eFull, ePart] [1]).2 encOne "t" "t" 2 2 rfl rfl⟩

/-- C10: every returned recommendation has exactly the fields title, url,
source and score, with title and source defaulting to `"Unknown"` and url
to `""` when absent from the stored metadata, and the score being a
rounded `1 - distance`; a result entry whose metadata is `None` is
silently skipped, so a query against a non-empty index can return fewer
than `min(top_k, count())` recommendations without any error. -/
theorem returned_record_shape :
    (∀ (col : Collection) (enc : Encoder) (q : String) (k : ℤ)
        (recs : List Rec) (r : Rec),
        (getRecommendations col enc q k).result = Except.ok recs → r ∈ recs →
        ∃ (m : Metadata) (d : ℝ), r.title = m.title.getD "Unknown" ∧ r.url = m.url.getD "" ∧
          r.source = m.source.getD "Unknown" ∧ r.score = round3R (1 - d)) ∧
    (∃ (col : Collection) (enc : Encoder) (q : String) (k : ℤ)
        (recs : List Rec),
        (getRecommendations col enc q k).result = Except.ok recs ∧
        recs.length < min k.toNat col.length) := by
  constructor
  · intro col enc q k recs r hres hr
    unfold getRecommendations at hres
    by_cases hc : col.length = 0
    · rw [if_pos hc] at hres
      replace hres : Except.ok ([] : List Rec) = Except.ok recs := hres
      replace hres := Except.ok.inj hres
      subst hres
      exact absurd hr (List.not_mem_nil r)
    · rw [if_neg hc] at hres
      cases henc : enc [q] with
      | error e =>
        rw [henc] at hres
        replace hres : Except.error e = Except.ok recs := hres
        exact Except.noConfusion hres
      | ok qembs =>
        rw [henc] at hres
        simp only [collectionQuery] at hres
        split at hres
        · replace hres : Except.ok ([] : List Rec) = Except.ok recs := hres
          replace hres := Except.ok.inj hres
          subst hres
          exact absurd hr (List.not_mem_nil r)
        · replace hres : Except.ok (buildRecs _ _) = Except.ok recs := hres
          replace hres := Except.ok.inj hres
          subst hres
          obtain ⟨m, d, _, hrec⟩ := mem_buildRecs _ _ hr
          subst hrec
          exact ⟨m, d, rfl, rfl, rfl, rfl⟩
  · have hord : qOrder [1] (0, eNone) (1, ePart) := by
      show distOf [1] (0, eNone) < distOf [1] (1, ePart) ∨
        (distOf [1] (0, eNone) = distOf [1] (1, ePart) ∧ (0 : ℕ) ≤ 1)
      exact Or.inr ⟨rfl, Nat.zero_le 1⟩
    have hranked : ranked [eNone, ePart] [1] = [(0, eNone), (1, ePart)] := by
      show List.insertionSort (qOrder [1]) (List.enum [eNone, ePart]) = _
      rw [show List.enum [eNone, ePart] = [(0, eNone), (1, ePart)] from rfl]
      simp only [List.insertionSort, List.orderedInsert]
      rw [if_pos hord]
    have hres : (getRecommendations [eNone, ePart] encOne "t" 2).result =
        Except.ok [mkRec metaPart (distOf [1] (1, ePart))] := by
      rw [getRecommendations_eq_ok [eNone, ePart] encOne "t" 2 [1] [] (by simp) rfl]
      show Except.ok _ = _
      rw [hranked]
      rfl
    exact ⟨[eNone, ePart], encOne, "t", 2, [mkRec metaPart (distOf [1] (1, ePart))],
      hres, by simp⟩

theorem returned_record_shape_witness :
    (getRecommendations [ePart] encOne "t" 1).result =
      Except.ok [mkRec metaPart (distOf [1] (0, ePart))] ∧
    (∃ (m : Metadata) (d : ℝ),
      (mkRec metaPart (distOf [1] (0, ePart))).title = m.title.getD "Unknown" ∧
      (mkRec metaPart (distOf [1] (0, ePart))).url = m.url.getD "" ∧
      (mkRec metaPart (distOf [1] (0, ePart))).source = m.source.getD "Unknown" ∧
      (mkRec metaPart (distOf [1] (0, ePart))).score = round3R (1 - d)) :=
  ⟨rfl, returned_record_shape.1 [ePart] encOne "t" 1 _ _ rfl (List.mem_singleton.mpr rfl)⟩
